import Mathlib

/-!
Verification development for the MetaTags Obsidian plugin
(repository `obsidian-metatags`, sources `src/main.ts` and
`src/unnamed/part_000`, which holds two further revisions of the
plugin).  Frontmatter maps are embedded as ordered association lists
(`FM`), document text as `List Char`, and the TypeScript functions
are translated one by one below; each definition's doc comment names
the source function it embeds.
-/

/-- Document text is modelled as a list of characters. -/
abbrev Str := List Char

/-- A frontmatter value.  JavaScript scalars that occur in the plugin
are modelled: `null`, `undefined`, booleans, strings, and arrays of
strings (arrays are used for the `tags` key, whose elements are tag
strings).  Numbers do not occur in the modelled fragment. -/
inductive Val where
  | vNull : Val
  | vUndef : Val
  | vBool : Bool → Val
  | vStr : Str → Val
  | vList : List Str → Val
deriving DecidableEq, Repr

open Val

/-- A frontmatter map: an ordered association list from keys to values,
mirroring a JavaScript object's insertion-ordered properties. -/
abbrev FM := List (Str × Val)

/-- Association-list lookup, mirroring JavaScript property access
`obj[k]` on an object embedded as an ordered association list
(first entry with the key wins; JS objects have unique keys). -/
def alookup {β : Type} : List (Str × β) → Str → Option β
  | [], _ => none
  | (k, v) :: t, key => if k = key then some v else alookup t key

/-- Mirrors the JavaScript `k in obj` / `obj.hasOwnProperty(k)` test. -/
def containsKey {β : Type} (m : List (Str × β)) (k : Str) : Bool :=
  (alookup m k).isSome

/-- The keys of a frontmatter map have no duplicates: the invariant of
every map that comes from an actual JavaScript object. -/
def nodupKeys {β : Type} (m : List (Str × β)) : Prop :=
  (m.map Prod.fst).Nodup

instance {β : Type} (m : List (Str × β)) : Decidable (nodupKeys m) := by
  unfold nodupKeys; infer_instance

/-- JavaScript object spread `{ ...a, ...b }`: the result has the keys
of `a` in order (with the value from `b` whenever `b` also has the
key), followed by the keys of `b` that are not in `a`, in order. -/
def spreadMerge (a b : FM) : FM :=
  a.map (fun kv => (kv.1, (alookup b kv.1).getD kv.2))
    ++ b.filter (fun kv => !(containsKey a kv.1))

/-- Index of the first occurrence of `pat` in `s` at offset `i` or
later, scanning left to right (the search model behind
`String.prototype.indexOf` and the regex searches below). -/
def findSubFrom (pat : Str) : Str → Nat → Option Nat
  | [], i => if pat.isEmpty then some i else none
  | c :: t, i =>
    if pat.isPrefixOf (c :: t) then some i else findSubFrom pat t (i + 1)

/-- Mirrors JavaScript `s.indexOf(pat, start)`; `none` stands for the
JavaScript result `-1`. -/
def indexOfFrom (s pat : Str) (start : Nat) : Option Nat :=
  (findSubFrom pat (s.drop start) 0).map (· + start)

/-- ASCII whitespace, the fragment of JavaScript whitespace exercised
by the plugin's documents. -/
def isWS (c : Char) : Bool :=
  c = ' ' || c = '\n' || c = '\t' || c = '\r'

/-- Mirrors JavaScript `s.trimStart()`. -/
def trimStart (s : Str) : Str := s.dropWhile isWS

/-- Mirrors JavaScript `s.trimEnd()`. -/
def trimEnd (s : Str) : Str := (s.reverse.dropWhile isWS).reverse

/-- Mirrors JavaScript `s.trim()`. -/
def trimBoth (s : Str) : Str := trimEnd (trimStart s)

/-- Splits a string at every newline character (helper for the
modelled YAML codec). -/
def splitOnNl : Str → List Str
  | [] => [[]]
  | c :: t =>
    match splitOnNl t with
    | [] => [[]]
    | l :: ls => if c = '\n' then [] :: l :: ls else (c :: l) :: ls

/-- Serializes the elements of an array value, comma-separated. -/
def dumpStrList : List Str → Str
  | [] => []
  | [x] => x
  | x :: y :: xs => x ++ ", ".toList ++ dumpStrList (y :: xs)

/-- Modelled from the spec: the external YAML serializer
(`js-yaml`'s `dump` in `main.ts`, the `yaml` package's `stringify`
in the other revisions), restricted to the flat scalar maps the
plugin manipulates.  A scalar is emitted verbatim, `null`/booleans
by their YAML spelling, and an array in flow style. -/
def dumpVal : Val → Str
  | vNull => "null".toList
  | vUndef => []
  | vBool true => "true".toList
  | vBool false => "false".toList
  | vStr s => s
  | vList xs => '[' :: dumpStrList xs ++ [']']

/-- Modelled from the spec: the external YAML serializer applied to a
whole map — one `key: value` line per entry, in insertion order. -/
def dumpFM (fm : FM) : Str :=
  (fm.map (fun kv => kv.1 ++ ": ".toList ++ dumpVal kv.2 ++ ['\n'])).flatten

/-- Modelled from the spec: the external YAML parser on a scalar. -/
def parseScalar (s : Str) : Val :=
  if s = "null".toList then vNull
  else if s = "true".toList then vBool true
  else if s = "false".toList then vBool false
  else vStr s

/-- Modelled from the spec: the external YAML parser on one
`key: value` line; `none` models a parse exception. -/
def parseLine (l : Str) : Option (Str × Val) :=
  match findSubFrom ": ".toList l 0 with
  | some i => some (l.take i, parseScalar (l.drop (i + 2)))
  | none => none

/-- Parses a block of lines into a map, failing when a nonempty line
is not a `key: value` entry. -/
def parseLinesFM : List Str → Option FM
  | [] => some []
  | l :: ls =>
    if l = [] then parseLinesFM ls
    else
      match parseLine l, parseLinesFM ls with
      | some kv, some fm => some (kv :: fm)
      | _, _ => none

/-- Modelled from the spec: the external YAML parser (`YAML.parse` /
`js-yaml` `load`) on the flat scalar fragment; `none` models the
exception path caught by `extractFrontmatter`. -/
def parseYamlModel (s : Str) : Option FM :=
  parseLinesFM (splitOnNl s)

/-- The marker string `---`. -/
def dashes : Str := ['-', '-', '-']

/-- The opening marker line `---\n`. -/
def dashesNL : Str := ['-', '-', '-', '\n']

/-- The pattern `\n---` that closes a frontmatter block. -/
def nlDashes : Str := ['\n', '-', '-', '-']

/-- The capture group of the regex `^---\n([\s\S]*?)\n---` used by
`extractFrontmatter` and by `updateContentWithFrontmatter`'s split:
the text must start with `---\n`, and the lazy capture runs to the
first following `\n---`. -/
def fmCapture (content : Str) : Option Str :=
  if dashesNL.isPrefixOf content then
    (findSubFrom nlDashes (content.drop 4) 0).map
      (fun i => (content.drop 4).take i)
  else none

/-- Embeds `extractFrontmatter` (part_000 lines 395-406 and
1220-1231): match the leading block regex; on a match, parse the
capture, returning `{}` when the parser throws; with no match
return `{}`. -/
def extractFrontmatter (content : Str) : FM :=
  match fmCapture content with
  | some cap => (parseYamlModel cap).getD []
  | none => []

/-- The `restOfContent` computation of `replaceFrontMatter`
(`main.ts` lines 362-377): find the first `---` anywhere, then the
next `---` from three characters later; if both exist the body is
everything after the second marker, trimmed at the start, otherwise
the whole text trimmed at the start. -/
def extractBody (content : Str) : Str :=
  match indexOfFrom content dashes 0 with
  | none => trimStart content
  | some s =>
    match indexOfFrom content dashes (s + 3) with
    | none => trimStart content
    | some e => trimStart (content.drop (e + 3))

/-- Embeds `replaceFrontMatter` (`main.ts` lines 362-377): emit
`---\n`, the dumped map, `---\n\n`, then the extracted body. -/
def replaceFrontMatter (content : Str) (newData : FM) : Str :=
  "---\n".toList ++ dumpFM newData ++ "---\n\n".toList ++ extractBody content

/-- The body used by `updateContentWithFrontmatter` and the revert in
`syncNotesWithTemplate`: splitting the content on the anchored block
regex and taking `pop()` of the result.  When the regex matches, the
split drops the matched block and `pop` yields the remainder;
otherwise `pop` yields the whole text. -/
def bodyAfterFM (content : Str) : Str :=
  match fmCapture content with
  | some cap => content.drop (cap.length + 8)
  | none => content

/-- Embeds `updateContentWithFrontmatter` (part_000 lines 422-434):
`---\n` + stringified map + `---\n`, a single newline, then the body
after the old block, trimmed on both ends. -/
def updateContentWithFrontmatter (content : Str) (frontmatter : FM) : Str :=
  "---\n".toList ++ dumpFM frontmatter ++ "---\n".toList
    ++ "\n".toList ++ trimBoth (bodyAfterFM content)

/-- The reserved key `tags`. -/
def tagsKey : Str := "tags".toList

/-- Embeds `mergeFrontmatter`'s tag cleanup (part_000 lines 412-417):
when the merged map's `tags` value is an array, remove the bare base
tag from it, in place. -/
def filterTags (fm : FM) (tagBase : Str) : FM :=
  match alookup fm tagsKey with
  | some (vList l) =>
    fm.map (fun kv =>
      if kv.1 = tagsKey then (kv.1, vList (l.filter (fun x => x ≠ tagBase)))
      else kv)
  | _ => fm

/-- Embeds `mergeFrontmatter` (part_000 lines 408-420):
`{ ...template, ...existing }` followed by the base-tag cleanup of
the `tags` array. -/
def mergeFrontmatter (existing template : FM) (tagBase : Str) : FM :=
  filterTags (spreadMerge template existing) tagBase

/-- Top-level values dropped by `JSON.stringify` (an `undefined`
property is omitted from the serialized object). -/
def stripUndef (fm : FM) : FM :=
  fm.filter (fun kv => kv.2 ≠ vUndef)

/-- Mirrors the test
`JSON.stringify(a) === JSON.stringify(b)` on two frontmatter
objects: stringification is key-order sensitive and omits
`undefined`-valued properties. -/
def jsonEq (a b : FM) : Bool :=
  stripUndef a = stripUndef b

/-- Embeds `applyMetadataTemplate` (part_000 lines 352-393), the
apply-template-to-document operation of the first revision: merge
the template frontmatter below the existing frontmatter; when the
merge result stringifies identically to the existing frontmatter,
skip the write (`none`); otherwise produce the new document text.
Reading the template file and the reentrancy flag are outside the
pure fragment: the template frontmatter is an input. -/
def applyMetadataTemplate (existingContent : Str) (templateFrontmatter : FM)
    (tagBase : Str) : Option Str :=
  let existingFrontmatter := extractFrontmatter existingContent
  let mergedFrontmatter :=
    mergeFrontmatter existingFrontmatter templateFrontmatter tagBase
  if jsonEq existingFrontmatter mergedFrontmatter then none
  else some (updateContentWithFrontmatter existingContent mergedFrontmatter)

/-- The template-accumulation loop of `applyTemplateMetadata`
(`main.ts` lines 237-250): starting from `{}`, each resolved
template is spread over the accumulator,
`mergedTemplateData = { ...mergedTemplateData, ...templateData }`. -/
def mergedTemplates (templates : List FM) : FM :=
  templates.foldl spreadMerge []

/-- The merged map built by `applyTemplateMetadata` (`main.ts` lines
232-263): the accumulated template data overlaid with the note data,
`{ ...mergedTemplateData, ...noteData }`. -/
def applyTemplateMergedData (noteData : FM) (templates : List FM) : FM :=
  spreadMerge (mergedTemplates templates) noteData

/-- Embeds `applyTemplateMetadata`'s write (`main.ts` lines 259-262):
the merged data replaces the document's frontmatter
unconditionally. -/
def applyTemplateMetadata (content : Str) (noteData : FM)
    (templates : List FM) : Str :=
  replaceFrontMatter content (applyTemplateMergedData noteData templates)

/-- The property diff of `handleTemplateMetadataChange` (`main.ts`
lines 199-214): keys of each revision minus the literal ignore list
`["tags", "mt"]`, then the two set differences. -/
def diffProps (prevTemplateData currTemplateData : FM) :
    List Str × List Str :=
  let ignoreProps : List Str := ["tags".toList, "mt".toList]
  let prevProps :=
    (prevTemplateData.map Prod.fst).filter (fun p => p ∉ ignoreProps)
  let currProps :=
    (currTemplateData.map Prod.fst).filter (fun p => p ∉ ignoreProps)
  (currProps.filter (fun p => p ∉ prevProps),
   prevProps.filter (fun p => p ∉ currProps))

/-- One JavaScript `delete obj[k]`. -/
def deleteKey (fm : FM) (k : Str) : FM :=
  fm.filter (fun kv => kv.1 ≠ k)

/-- The added-properties loop of `syncTemplateToNote` (`main.ts` lines
278-285): a property the note lacks is appended with the template's
value; an existing property (even an empty one) is untouched. -/
def addProps (fm : FM) (props : List Str) (currTemplateData : FM) : FM :=
  props.foldl
    (fun acc p =>
      if containsKey acc p then acc
      else acc ++ [(p, (alookup currTemplateData p).getD vUndef)])
    fm

/-- The emptiness test of `syncTemplateToNote`'s removal loop:
`v === "" || v == null` (loose equality, so both `null` and
`undefined` count). -/
def isEmptyLoose (v : Val) : Bool :=
  v = vStr [] || v = vNull || v = vUndef

/-- The removed-properties loop of `syncTemplateToNote` (`main.ts`
lines 287-297): a removed property is deleted from the note only
when present with an empty value. -/
def removeProps (fm : FM) (props : List Str) : FM :=
  props.foldl
    (fun acc p =>
      match alookup acc p with
      | some v => if isEmptyLoose v then deleteKey acc p else acc
      | none => acc)
    fm

/-- Embeds the map computed by `syncTemplateToNote` (`main.ts` lines
265-307): copy the note data, add the added properties, then delete
the removed properties that are empty. -/
def syncTemplateToNoteData (noteData : FM) (addedProps removedProps : List Str)
    (currTemplateData : FM) : FM :=
  removeProps (addProps noteData addedProps currTemplateData) removedProps

/-- The strict emptiness test of the second revision's pruning
(part_000 line 1000): `v === "" || v === null` (strict, so
`undefined` does not count). -/
def isEmptyStrict (v : Val) : Bool :=
  v = vStr [] || v = vNull

/-- Embeds the map computed by `removeEmptyTemplateProperties`
(part_000 lines 983-1013, the second revision, enabled by the
`deleteEmptyMetatagProperties` setting): iterate the note's
properties; one that the dropped template also has is deleted when
its value is empty, or when the template value is a boolean equal to
the note's value.  (The `main.ts` copy of this function starts with
a bare `return` and does nothing.) -/
def removeEmptyTemplatePropertiesData (noteData templateData : FM) : FM :=
  noteData.filter (fun kv =>
    match alookup templateData kv.1 with
    | none => true
    | some tv =>
      if isEmptyStrict kv.2 then false
      else
        match tv with
        | vBool b => kv.2 ≠ vBool b
        | _ => true)

/-- JavaScript falsiness on the modelled values, the test
`!existingFrontmatter[prop]` of `syncNotesWithTemplate`
(part_000 line 509). -/
def isFalsy (v : Val) : Bool :=
  v = vNull || v = vUndef || v = vStr [] || v = vBool false

/-- Embeds `getDeletedProperties` (part_000 lines 313-322): the keys
of the old template map that the new one lacks, in order. -/
def getDeletedProperties (oldTemplate newTemplate : FM) : List Str :=
  (oldTemplate.map Prod.fst).filter (fun k => !(containsKey newTemplate k))

/-- The reverted template text written when the destructive change is
declined (part_000 lines 478-482): `---\n`, the stringified previous
frontmatter, `---\n`, then the text after the new content's block. -/
def revertContent (previousFrontmatter : FM) (newTemplateContent : Str) : Str :=
  "---\n".toList ++ dumpFM previousFrontmatter ++ "---\n".toList
    ++ bodyAfterFM newTemplateContent

/-- A markdown file as `syncNotesWithTemplate` sees it: its path, the
frontmatter tag list the metadata cache reports, and its raw text. -/
structure NoteFile where
  path : Str
  tags : List Str
  content : Str
deriving DecidableEq, Repr

/-- Whether a file carries the tag reference `tagBase/templateName`. -/
def isBound (f : NoteFile) (tagBase templateName : Str) : Bool :=
  (tagBase ++ ['/'] ++ templateName) ∈ f.tags

/-- The per-note step of `syncNotesWithTemplate`'s loop (part_000
lines 501-534): parse the note, delete the dropped properties whose
value is falsy, merge the new template frontmatter underneath, and
write only when the result stringifies differently from the
(already mutated) note frontmatter. -/
def syncNoteStep (f : NoteFile) (deletedProperties : List Str)
    (newTemplateFrontmatter : FM) (tagBase : Str) : Option (Str × Str) :=
  let existingFrontmatter := extractFrontmatter f.content
  let mutated :=
    deletedProperties.foldl
      (fun acc p =>
        match alookup acc p with
        | some v => if isFalsy v then deleteKey acc p else acc
        | none => acc)
      existingFrontmatter
  let mergedFrontmatter := mergeFrontmatter mutated newTemplateFrontmatter tagBase
  if jsonEq mutated mergedFrontmatter then none
  else some (f.path, updateContentWithFrontmatter f.content mergedFrontmatter)

/-- The outcome of one `syncNotesWithTemplate` run. -/
structure SyncOutcome where
  confirmAsked : Bool
  templateWrite : Option Str
  noteWrites : List (Str × Str)
  snapshotAfter : FM
deriving DecidableEq, Repr

/-- Embeds `syncNotesWithTemplate` (part_000 lines 447-537, the first
revision): diff the stored previous frontmatter against the new
template text; when properties were deleted, ask for confirmation —
declining writes the reverted template text and touches no note —
otherwise record the new snapshot and propagate to every file
carrying the tag reference.  `confirmAnswer` models the value of
`window.confirm`. -/
def syncNotesWithTemplate (previousFrontmatter : FM)
    (newTemplateContent : Str) (tagBase templateName : Str)
    (allFiles : List NoteFile) (confirmAnswer : Bool) : SyncOutcome :=
  let newTemplateFrontmatter := extractFrontmatter newTemplateContent
  let deletedProperties :=
    getDeletedProperties previousFrontmatter newTemplateFrontmatter
  if deletedProperties ≠ [] ∧ confirmAnswer = false then
    { confirmAsked := true
      templateWrite := some (revertContent previousFrontmatter newTemplateContent)
      noteWrites := []
      snapshotAfter := previousFrontmatter }
  else
    { confirmAsked := deletedProperties ≠ []
      templateWrite := none
      noteWrites :=
        (allFiles.filter (fun f => isBound f tagBase templateName)).filterMap
          (fun f => syncNoteStep f deletedProperties newTemplateFrontmatter tagBase)
      snapshotAfter := newTemplateFrontmatter }

/-- A markdown file as `handleTemplateMetadataChange` sees it: path,
cached tag list, the frontmatter the metadata cache reports, and the
raw text read from the vault. -/
structure NoteB where
  path : Str
  tags : List Str
  noteData : FM
  content : Str
deriving DecidableEq, Repr

/-- Mirrors `Map.prototype.set`: replace the value of an existing key
or append a new entry. -/
def mapSet {β : Type} (m : List (Str × β)) (k : Str) (v : β) :
    List (Str × β) :=
  if containsKey m k then m.map (fun kv => if kv.1 = k then (k, v) else kv)
  else m ++ [(k, v)]

/-- The propagation loop of `handleTemplateMetadataChange` (`main.ts`
lines 217-229), with fallible writes: a path in `failPaths` models a
`vault.modify` rejection, which aborts the loop (the thrown
rejection leaves the remaining files unprocessed).  Returns the
successful writes and whether the loop completed. -/
def propagateLoop (files : List NoteB) (tagBase metaTagName : Str)
    (addedProps removedProps : List Str) (currTemplateData : FM)
    (failPaths : List Str) : List (Str × Str) × Bool :=
  match files with
  | [] => ([], true)
  | f :: rest =>
    if (tagBase ++ ['/'] ++ metaTagName) ∈ f.tags then
      let newContent :=
        replaceFrontMatter f.content
          (syncTemplateToNoteData f.noteData addedProps removedProps
            currTemplateData)
      if f.path ∈ failPaths then ([], false)
      else
        let r := propagateLoop rest tagBase metaTagName addedProps removedProps
          currTemplateData failPaths
        ((f.path, newContent) :: r.1, r.2)
    else propagateLoop rest tagBase metaTagName addedProps removedProps
      currTemplateData failPaths

/-- Embeds `handleTemplateMetadataChange` (`main.ts` lines 186-230):
read the previous frontmatter from the template cache, immediately
overwrite the cache entry with the current frontmatter, diff, and
only then propagate to every note carrying the tag reference.
Returns the updated cache, the successful note writes, and whether
propagation completed without a write failure. -/
def handleTemplateMetadataChange (templatePath metaTagName tagBase : Str)
    (templateCache : List (Str × FM)) (currTemplateData : FM)
    (allFiles : List NoteB) (failPaths : List Str) :
    List (Str × FM) × List (Str × Str) × Bool :=
  let prevTemplateData := (alookup templateCache templatePath).getD []
  let cacheAfter := mapSet templateCache templatePath currTemplateData
  let diff := diffProps prevTemplateData currTemplateData
  let r := propagateLoop allFiles tagBase metaTagName diff.1 diff.2
    currTemplateData failPaths
  (cacheAfter, r.1, r.2)

/-- Well-behavedness of a frontmatter map under the modelled YAML
codec: its dump ends in a newline, contains no `---` marker, and
parses back to the map itself.  This captures the spec's
well-formedness restriction on the structured block. -/
def yamlRT (f : FM) : Prop :=
  (dumpFM f).getLast? = some '\n'
  ∧ findSubFrom dashes (dumpFM f) 0 = none
  ∧ parseYamlModel ((dumpFM f).dropLast) = some f

instance (f : FM) : Decidable (yamlRT f) := by
  unfold yamlRT; infer_instance


/-! ### Association-list toolkit -/

theorem mem_keys_cons {β : Type} {a : Str} {b : β} {t : List (Str × β)}
    {k : Str} :
    k ∈ ((a, b) :: t).map Prod.fst ↔ k = a ∨ k ∈ t.map Prod.fst := by
  rw [List.map_cons]
  exact List.mem_cons

theorem alookup_append {β : Type} (xs ys : List (Str × β)) (k : Str) :
    alookup (xs ++ ys) k =
      match alookup xs k with
      | some v => some v
      | none => alookup ys k := by
  induction xs with
  | nil => simp [alookup]
  | cons kv t ih =>
    obtain ⟨a, b⟩ := kv
    by_cases h : a = k <;> simp [alookup, h, ih]

theorem alookup_map_val {β γ : Type} (f : Str → β → γ)
    (xs : List (Str × β)) (k : Str) :
    alookup (xs.map (fun kv => (kv.1, f kv.1 kv.2))) k =
      (alookup xs k).map (f k) := by
  induction xs with
  | nil => simp [alookup]
  | cons kv t ih =>
    obtain ⟨a, b⟩ := kv
    by_cases h : a = k
    · subst h; simp [alookup]
    · simp [alookup, h, ih]

theorem alookup_filter_key {β : Type} (q : Str → Bool)
    (xs : List (Str × β)) (k : Str) :
    alookup (xs.filter (fun kv => q kv.1)) k =
      if q k then alookup xs k else none := by
  induction xs with
  | nil => simp [alookup]
  | cons kv t ih =>
    obtain ⟨a, b⟩ := kv
    by_cases hak : a = k
    · subst hak
      by_cases hq : q a <;> simp [alookup, hq, ih]
    · by_cases hq : q a <;> simp [alookup, hq, hak, ih]

theorem alookup_eq_none_of_not_mem {β : Type} (xs : List (Str × β)) (k : Str)
    (h : k ∉ xs.map Prod.fst) : alookup xs k = none := by
  induction xs with
  | nil => rfl
  | cons kv t ih =>
    obtain ⟨a, b⟩ := kv
    have h1 : ¬ (a = k) := fun hc => h (mem_keys_cons.mpr (Or.inl hc.symm))
    have h2 : k ∉ t.map Prod.fst := fun hc => h (mem_keys_cons.mpr (Or.inr hc))
    simp [alookup, h1, ih h2]

theorem containsKey_eq_mem {β : Type} (xs : List (Str × β)) (k : Str) :
    containsKey xs k = true ↔ k ∈ xs.map Prod.fst := by
  induction xs with
  | nil => simp [containsKey, alookup]
  | cons kv t ih =>
    obtain ⟨a, b⟩ := kv
    rw [mem_keys_cons]
    by_cases h : a = k
    · subst h
      constructor
      · intro _; exact Or.inl rfl
      · intro _; simp [containsKey, alookup]
    · have h2 : containsKey ((a, b) :: t) k = containsKey t k := by
        simp [containsKey, alookup, h]
      rw [h2, ih]
      constructor
      · exact Or.inr
      · rintro (hc | hc)
        · exact absurd hc.symm h
        · exact hc

theorem alookup_filter {β : Type} (p : Str × β → Bool)
    (xs : List (Str × β)) (k : Str) (h : nodupKeys xs) :
    alookup (xs.filter p) k =
      match alookup xs k with
      | some v => if p (k, v) then some v else none
      | none => none := by
  induction xs with
  | nil => simp [alookup]
  | cons kv t ih =>
    obtain ⟨a, b⟩ := kv
    unfold nodupKeys at h
    rw [List.map_cons, List.nodup_cons] at h
    have hnin : a ∉ t.map Prod.fst := h.1
    have hnd : nodupKeys t := h.2
    by_cases hak : a = k
    · subst hak
      by_cases hp : p (a, b)
      · simp [alookup, hp]
      · rw [List.filter_cons, if_neg (by simpa using hp)]
        have hrest := ih hnd
        rw [alookup_eq_none_of_not_mem t a hnin] at hrest
        simp only [hrest]
        simp [alookup, hp]
    · by_cases hp : p (a, b) <;> simp [alookup, hak, hp, ih hnd]

theorem alookup_of_mem_nodup {β : Type} (xs : List (Str × β))
    (kv : Str × β) (hmem : kv ∈ xs) (h : nodupKeys xs) :
    alookup xs kv.1 = some kv.2 := by
  induction xs with
  | nil => cases hmem
  | cons hd t ih =>
    obtain ⟨a, b⟩ := hd
    unfold nodupKeys at h
    rw [List.map_cons, List.nodup_cons] at h
    have hnin : a ∉ t.map Prod.fst := h.1
    have hnd : nodupKeys t := h.2
    rcases List.mem_cons.mp hmem with heq | hmem2
    · subst heq; simp [alookup]
    · have hk : ¬ (a = kv.1) := by
        intro hc
        exact hnin (hc ▸ List.mem_map_of_mem Prod.fst hmem2)
      simp [alookup, hk, ih hmem2 hnd]

theorem lookup_spreadMerge (a b : FM) (k : Str) :
    alookup (spreadMerge a b) k =
      match alookup a k with
      | some va => some ((alookup b k).getD va)
      | none => alookup b k := by
  unfold spreadMerge
  rw [alookup_append, alookup_map_val (fun key v => (alookup b key).getD v)]
  rw [alookup_filter_key (fun key => !(containsKey a key))]
  cases h : alookup a k with
  | some va => simp [containsKey, h]
  | none => simp [containsKey, h]

theorem lookup_spreadMerge_right (a b : FM) (k : Str) (v : Val)
    (h : alookup b k = some v) : alookup (spreadMerge a b) k = some v := by
  rw [lookup_spreadMerge]
  cases ha : alookup a k <;> simp [h]

/-! ### Substring-search toolkit -/

theorem findSubFrom_of_isPrefixOf (pat s : Str) (i : Nat)
    (h : pat.isPrefixOf s = true) : findSubFrom pat s i = some i := by
  cases s with
  | nil =>
    have : pat = [] := by
      cases pat with
      | nil => rfl
      | cons c t => simp [List.isPrefixOf] at h
    subst this
    simp [findSubFrom, List.isEmpty]
  | cons c t => simp [findSubFrom, h]

theorem findSubFrom_skip (pat x s : Str) (i : Nat)
    (h : ∀ k, k < x.length → ¬ (pat.isPrefixOf ((x ++ s).drop k) = true)) :
    findSubFrom pat (x ++ s) i = findSubFrom pat s (i + x.length) := by
  induction x generalizing i with
  | nil => simp
  | cons c t ih =>
    have h0 : ¬ (pat.isPrefixOf (c :: (t ++ s)) = true) := by
      have := h 0 (Nat.succ_pos _)
      simpa using this
    have hstep : ∀ k, k < t.length →
        ¬ (pat.isPrefixOf ((t ++ s).drop k) = true) := by
      intro k hk
      have := h (k + 1) (by simpa using Nat.succ_lt_succ hk)
      simpa using this
    calc findSubFrom pat ((c :: t) ++ s) i
        = findSubFrom pat (t ++ s) (i + 1) := by
          simp only [List.cons_append, findSubFrom, List.append_eq]
          rw [if_neg h0]
      _ = findSubFrom pat s (i + 1 + t.length) := ih (i + 1) hstep
      _ = findSubFrom pat s (i + (t.length + 1)) := by ring_nf
      _ = findSubFrom pat s (i + (c :: t).length) := by simp

theorem findSubFrom_none (pat s : Str) (i : Nat)
    (h : findSubFrom pat s i = none) :
    ∀ k, ¬ (pat.isPrefixOf (s.drop k) = true) := by
  induction s generalizing i with
  | nil =>
    intro k hc
    rw [List.drop_nil] at hc
    cases pat with
    | nil => simp [findSubFrom, List.isEmpty] at h
    | cons c t => simp [List.isPrefixOf] at hc
  | cons c t ih =>
    intro k
    by_cases hp : pat.isPrefixOf (c :: t) = true
    · simp [findSubFrom, hp] at h
    · have hrec : findSubFrom pat t (i + 1) = none := by
        simpa [findSubFrom, hp] using h
      cases k with
      | zero => simpa using hp
      | succ k2 =>
        have := ih (i + 1) hrec k2
        simpa using this

theorem prefix_getElem (pat s : Str) (h : pat.isPrefixOf s = true)
    (j : Nat) (hj : j < pat.length) : s[j]? = pat[j]? := by
  rw [ List.isPrefixOf_iff_prefix] at h
  obtain ⟨t, ht⟩ := h
  rw [← ht]
  exact List.getElem?_append_left hj

theorem prefix_of_getElem (pat s : Str)
    (h : ∀ j, j < pat.length → s[j]? = pat[j]?) :
    pat.isPrefixOf s = true := by
  have hlen : pat.length ≤ s.length := by
    by_contra hc
    push_neg at hc
    have h1 := h s.length hc
    rw [List.getElem?_length] at h1
    have h2 := List.getElem?_eq_none_iff.mp h1.symm
    omega
  rw [ List.isPrefixOf_iff_prefix, List.prefix_iff_eq_take]
  apply List.ext_getElem?
  intro n
  by_cases hn : n < pat.length
  · rw [List.getElem?_take_of_lt hn]
    exact (h n hn).symm
  · push_neg at hn
    rw [List.getElem?_eq_none hn, List.getElem?_eq_none]
    rw [List.length_take]
    exact le_trans (Nat.min_le_left _ _) hn

/-! ### Frontmatter block shape lemmas -/

theorem no_dash_run (D rest : Str) (hnd : findSubFrom dashes D 0 = none)
    (hlast : D.getLast? = some '\n') (m : Nat) (hm : m < D.length)
    (h0 : (D ++ rest)[m]? = some '-') (h1 : (D ++ rest)[m + 1]? = some '-')
    (h2 : (D ++ rest)[m + 2]? = some '-') : False := by
  have hDlast : D[D.length - 1]? = some '\n' := by
    rw [← List.getLast?_eq_getElem?]; exact hlast
  by_cases hcase : m + 3 ≤ D.length
  · have hpre : dashes.isPrefixOf (D.drop m) = true := by
      apply prefix_of_getElem
      intro j hj
      have hj3 : j < 3 := by simpa [dashes] using hj
      rw [List.getElem?_drop]
      have hin : m + j < D.length := by omega
      have hD : D[m + j]? = some '-' := by
        rw [← @List.getElem?_append_left Char D rest (m + j) hin]
        interval_cases j
        · simpa using h0
        · simpa using h1
        · simpa using h2
      rw [hD]
      interval_cases j <;> rfl
    exact absurd hpre (findSubFrom_none dashes D 0 hnd m)
  · have hsplit : m = D.length - 1 ∨ (m = D.length - 2 ∧ 2 ≤ D.length) := by
      omega
    rcases hsplit with hm1 | ⟨hm2, hlen2⟩
    · rw [List.getElem?_append_left hm, hm1, hDlast] at h0
      exact absurd (Option.some.inj h0) (by decide)
    · have hm1lt : m + 1 < D.length := by omega
      rw [List.getElem?_append_left hm1lt] at h1
      have : m + 1 = D.length - 1 := by omega
      rw [this, hDlast] at h1
      exact absurd (Option.some.inj h1) (by decide)

theorem findSub_nlDashes_block (D rest : Str)
    (hlast : D.getLast? = some '\n') (hnd : findSubFrom dashes D 0 = none) :
    findSubFrom nlDashes (D ++ (dashes ++ rest)) 0 = some (D.length - 1) := by
  have hD0 : D ≠ [] := by
    intro hD; rw [hD] at hlast; simp at hlast
  have hgl : D.getLast hD0 = '\n' := by
    have h := List.getLast?_eq_getLast D hD0
    rw [h] at hlast
    exact Option.some.inj hlast
  have hsplit : D.dropLast ++ ['\n'] = D := by
    conv_rhs => rw [← List.dropLast_concat_getLast hD0]
    rw [hgl]
  have hlen : D.length = D.dropLast.length + 1 := by
    conv_lhs => rw [← hsplit]
    simp
  have hassoc : D ++ (dashes ++ rest) = D.dropLast ++ (nlDashes ++ rest) := by
    conv_lhs => rw [← hsplit]
    rw [List.append_assoc]
    rfl
  rw [hassoc]
  rw [findSubFrom_skip nlDashes D.dropLast (nlDashes ++ rest) 0 ?hskip]
  case hskip =>
    intro k hk hpre
    rw [← hassoc] at hpre
    have hchar : ∀ j, j < nlDashes.length →
        ((D ++ (dashes ++ rest)).drop k)[j]? = nlDashes[j]? :=
      fun j hj => prefix_getElem _ _ hpre j hj
    apply no_dash_run D (dashes ++ rest) hnd hlast (k + 1) (by omega)
    · have := hchar 1 (by decide)
      rw [List.getElem?_drop] at this
      simpa using this
    · have := hchar 2 (by decide)
      rw [List.getElem?_drop] at this
      have heq : k + 2 = k + 1 + 1 := by omega
      rw [heq] at this
      simpa using this
    · have := hchar 3 (by decide)
      rw [List.getElem?_drop] at this
      have heq : k + 3 = k + 1 + 2 := by omega
      rw [heq] at this
      simpa using this
  · rw [findSubFrom_of_isPrefixOf nlDashes (nlDashes ++ rest) _
      (by rw [ List.isPrefixOf_iff_prefix]; exact List.prefix_append _ _)]
    congr 1
    omega

theorem findSub_dashes_block (D rest : Str)
    (hlast : D.getLast? = some '\n') (hnd : findSubFrom dashes D 0 = none) :
    findSubFrom dashes ('\n' :: (D ++ (dashes ++ rest))) 0 =
      some (1 + D.length) := by
  have hstep : ¬ (dashes.isPrefixOf ('\n' :: (D ++ (dashes ++ rest))) = true) := by
    simp [dashes, List.isPrefixOf]
  rw [show ('\n' :: (D ++ (dashes ++ rest))) = ['\n'] ++ (D ++ (dashes ++ rest))
    from rfl]
  rw [findSubFrom_skip dashes ['\n'] (D ++ (dashes ++ rest)) 0 ?h1]
  case h1 =>
    intro k hk
    have : k = 0 := by simpa using hk
    subst this
    simpa using hstep
  rw [findSubFrom_skip dashes D (dashes ++ rest) _ ?h2]
  case h2 =>
    intro k hk hpre
    have hchar : ∀ j, j < dashes.length →
        ((D ++ (dashes ++ rest)).drop k)[j]? = dashes[j]? :=
      fun j hj => prefix_getElem _ _ hpre j hj
    apply no_dash_run D (dashes ++ rest) hnd hlast k hk
    · have := hchar 0 (by decide)
      rw [List.getElem?_drop] at this
      simpa using this
    · have := hchar 1 (by decide)
      rw [List.getElem?_drop] at this
      simpa using this
    · have := hchar 2 (by decide)
      rw [List.getElem?_drop] at this
      simpa using this
  rw [findSubFrom_of_isPrefixOf dashes (dashes ++ rest) _
    (by rw [ List.isPrefixOf_iff_prefix]; exact List.prefix_append _ _)]
  simp

theorem fmCapture_block (f : FM) (rest : Str) (h : yamlRT f) :
    fmCapture (dashesNL ++ (dumpFM f ++ (dashes ++ rest))) =
      some (dumpFM f).dropLast := by
  obtain ⟨hlast, hnd, _⟩ := h
  have hD0 : dumpFM f ≠ [] := by
    intro hD; rw [hD] at hlast; simp at hlast
  unfold fmCapture
  rw [if_pos (by rw [ List.isPrefixOf_iff_prefix]; exact List.prefix_append _ _)]
  rw [List.drop_left' (by rfl)]
  rw [findSub_nlDashes_block _ _ hlast hnd, Option.map_some']
  rw [List.take_append_of_le_length (by omega)]
  rw [← List.dropLast_eq_take]

theorem extractFrontmatter_block (f : FM) (rest : Str) (h : yamlRT f) :
    extractFrontmatter (dashesNL ++ (dumpFM f ++ (dashes ++ rest))) = f := by
  simp only [extractFrontmatter, fmCapture_block f rest h, h.2.2]
  rfl

theorem trimStart_idem (s : Str) : trimStart (trimStart s) = trimStart s := by
  unfold trimStart
  induction s with
  | nil => rfl
  | cons c t ih =>
    by_cases hc : isWS c
    · simpa [List.dropWhile_cons, hc] using ih
    · simp [List.dropWhile_cons, hc]

theorem extractBody_trimStart (c : Str) :
    trimStart (extractBody c) = extractBody c := by
  cases h1 : indexOfFrom c dashes 0 with
  | none =>
    simp only [extractBody, h1]
    exact trimStart_idem c
  | some s =>
    cases h2 : indexOfFrom c dashes (s + 3) with
    | none =>
      simp only [extractBody, h1, h2]
      exact trimStart_idem c
    | some e =>
      simp only [extractBody, h1, h2]
      exact trimStart_idem _

theorem extractBody_block (f : FM) (b : Str) (h : yamlRT f) :
    extractBody (dashesNL ++ (dumpFM f ++ (dashes ++ ('\n' :: '\n' :: b)))) =
      trimStart b := by
  obtain ⟨hlast, hnd, _⟩ := h
  set D := dumpFM f with hD
  set S := dashesNL ++ (D ++ (dashes ++ ('\n' :: '\n' :: b))) with hS
  have hshape : S = dashes ++ ('\n' :: (D ++ (dashes ++ ('\n' :: '\n' :: b)))) := by
    rw [hS]; rfl
  have hstart : indexOfFrom S dashes 0 = some 0 := by
    unfold indexOfFrom
    rw [List.drop_zero, findSubFrom_of_isPrefixOf dashes S 0 ?hp]
    · rfl
    case hp =>
      rw [ List.isPrefixOf_iff_prefix, hshape]
      exact List.prefix_append _ _
  have hdrop3 : S.drop 3 = '\n' :: (D ++ (dashes ++ ('\n' :: '\n' :: b))) := by
    rw [hshape]
    exact List.drop_left' (by rfl)
  have hend : indexOfFrom S dashes (0 + 3) = some (D.length + 4) := by
    unfold indexOfFrom
    rw [show (0 + 3 : Nat) = 3 from rfl, hdrop3]
    rw [findSub_dashes_block D ('\n' :: '\n' :: b) hlast hnd]
    rw [Option.map_some']
    congr 1
    omega
  have hdropend : S.drop (D.length + 4 + 3) = '\n' :: '\n' :: b := by
    have hS2 : S = (dashesNL ++ D ++ dashes) ++ ('\n' :: '\n' :: b) := by
      rw [hS]; simp [List.append_assoc]
    rw [hS2]
    apply List.drop_left'
    simp [dashesNL, dashes]
  simp only [extractBody, hstart, hend, hdropend]
  unfold trimStart
  rw [List.dropWhile_cons_of_pos (by decide), List.dropWhile_cons_of_pos (by decide)]

theorem replaceFrontMatter_shape (c : Str) (f : FM) :
    replaceFrontMatter c f =
      dashesNL ++ (dumpFM f ++ (dashes ++ ('\n' :: '\n' :: extractBody c))) := by
  simp [replaceFrontMatter, dashesNL, dashes, List.append_assoc]

theorem updateContentWithFrontmatter_shape (c : Str) (f : FM) :
    updateContentWithFrontmatter c f =
      dashesNL ++ (dumpFM f ++ (dashes ++ ('\n' :: '\n' :: trimBoth (bodyAfterFM c)))) := by
  simp [updateContentWithFrontmatter, dashesNL, dashes, List.append_assoc]

theorem revertContent_shape (f : FM) (c : Str) :
    revertContent f c =
      dashesNL ++ (dumpFM f ++ (dashes ++ ('\n' :: bodyAfterFM c))) := by
  simp [revertContent, dashesNL, dashes, List.append_assoc]

theorem extractFrontmatter_replaceFrontMatter (c : Str) (f : FM) (h : yamlRT f) :
    extractFrontmatter (replaceFrontMatter c f) = f := by
  rw [replaceFrontMatter_shape]
  exact extractFrontmatter_block f _ h

theorem extractBody_replaceFrontMatter (c : Str) (f : FM) (h : yamlRT f) :
    extractBody (replaceFrontMatter c f) = extractBody c := by
  rw [replaceFrontMatter_shape]
  rw [extractBody_block f _ h]
  exact extractBody_trimStart c

theorem extractFrontmatter_updateContent (c : Str) (f : FM) (h : yamlRT f) :
    extractFrontmatter (updateContentWithFrontmatter c f) = f := by
  rw [updateContentWithFrontmatter_shape]
  exact extractFrontmatter_block f _ h

theorem extractFrontmatter_revertContent (f : FM) (c : Str) (h : yamlRT f) :
    extractFrontmatter (revertContent f c) = f := by
  rw [revertContent_shape]
  exact extractFrontmatter_block f _ h

/-! ### Further engine lemmas -/

theorem alookup_some_mem_keys {β : Type} (xs : List (Str × β)) (k : Str)
    (v : β) (h : alookup xs k = some v) : k ∈ xs.map Prod.fst := by
  by_contra hc
  rw [alookup_eq_none_of_not_mem xs k hc] at h
  cases h

theorem lookup_foldl_spreadMerge (ts : List FM) (init : FM) (k : Str) :
    alookup (ts.foldl spreadMerge init) k =
      ts.foldl
        (fun acc u =>
          match alookup u k with
          | some w => some w
          | none => acc)
        (alookup init k) := by
  induction ts generalizing init with
  | nil => rfl
  | cons u rest ih =>
    rw [List.foldl_cons, ih, List.foldl_cons]
    congr 1
    rw [lookup_spreadMerge]
    cases h1 : alookup init k <;> cases h2 : alookup u k <;> simp [h1, h2]

theorem alookup_addProps (fm : FM) (props : List Str) (tmpl : FM)
    (k : Str) (v : Val) (h : alookup fm k = some v) :
    alookup (addProps fm props tmpl) k = some v := by
  unfold addProps
  induction props generalizing fm with
  | nil => exact h
  | cons p rest ih =>
    rw [List.foldl_cons]
    by_cases hc : containsKey fm p
    · rw [if_pos hc]
      exact ih fm h
    · rw [if_neg hc]
      apply ih
      rw [alookup_append, h]

theorem alookup_deleteKey (fm : FM) (p k : Str) (hpk : ¬ (k = p)) :
    alookup (deleteKey fm p) k = alookup fm k := by
  unfold deleteKey
  rw [alookup_filter_key (fun key => key ≠ p)]
  simp [hpk]

theorem alookup_removeProps (fm : FM) (props : List Str) (k : Str) (v : Val)
    (hv : alookup fm k = some v) (hne : isEmptyLoose v = false) :
    alookup (removeProps fm props) k = some v := by
  unfold removeProps
  induction props generalizing fm with
  | nil => exact hv
  | cons p rest ih =>
    rw [List.foldl_cons]
    by_cases hpk : p = k
    · subst hpk
      simp only [hv, hne, Bool.false_eq_true, if_false]
      exact ih fm hv
    · cases hp : alookup fm p with
      | none =>
        simp only [hp]
        exact ih fm hv
      | some w =>
        by_cases hw : isEmptyLoose w = true
        · simp only [hp, hw, if_true]
          apply ih
          rw [alookup_deleteKey fm p k (fun hc => hpk hc.symm)]
          exact hv
        · have hw2 : isEmptyLoose w = false := by simpa using hw
          simp only [hp, hw2, Bool.false_eq_true, if_false]
          exact ih fm hv

theorem alookup_map_replace {β : Type} (m : List (Str × β)) (k : Str) (v : β)
    (h : containsKey m k = true) :
    alookup (m.map (fun kv => if kv.1 = k then (k, v) else kv)) k = some v := by
  induction m with
  | nil => simp [containsKey, alookup] at h
  | cons kv t ih =>
    obtain ⟨a, b⟩ := kv
    by_cases hak : a = k
    · subst hak
      have hstep : ((a, b) :: t).map (fun kv => if kv.1 = a then (a, v) else kv) =
          (a, v) :: t.map (fun kv => if kv.1 = a then (a, v) else kv) := by
        simp
      rw [hstep]
      simp [alookup]
    · have ht : containsKey t k = true := by
        simpa [containsKey, alookup, hak] using h
      have step : ((a, b) :: t).map (fun kv => if kv.1 = k then (k, v) else kv) =
          (a, b) :: t.map (fun kv => if kv.1 = k then (k, v) else kv) := by
        simp [hak]
      rw [step]
      simpa [alookup, hak] using ih ht

theorem alookup_mapSet {β : Type} (m : List (Str × β)) (k : Str) (v : β) :
    alookup (mapSet m k v) k = some v := by
  unfold mapSet
  by_cases h : containsKey m k
  · rw [if_pos h]
    exact alookup_map_replace m k v h
  · rw [if_neg h]
    rw [alookup_append]
    have hnone : alookup m k = none := by
      cases hc : alookup m k with
      | none => rfl
      | some w => exact absurd (by simp [containsKey, hc]) h
    rw [hnone]
    simp [alookup]

/-! ### Claims -/

/-- C1: for every document whose frontmatter contains an explicit entry
`k = v` and any list of referenced templates, the merged map built by
`applyTemplateMetadata` still maps `k` to `v`: the document's own
properties always override template-supplied values. -/
theorem c1_document_values_override (noteData : FM) (templates : List FM)
    (k : Str) (v : Val) (h : alookup noteData k = some v) :
    alookup (applyTemplateMergedData noteData templates) k = some v :=
  lookup_spreadMerge_right _ _ _ _ h

/-- Witness for C1 at a concrete input: a note with `author: Jane`
keeps `Jane` after merging a template carrying `author: unknown`. -/
theorem c1_document_values_override_witness :
    alookup [("author".toList, vStr "Jane".toList)] "author".toList =
        some (vStr "Jane".toList)
    ∧ alookup
        (applyTemplateMergedData [("author".toList, vStr "Jane".toList)]
          [[("author".toList, vStr "unknown".toList)],
           [("rating".toList, vStr "".toList)]])
        "author".toList = some (vStr "Jane".toList) :=
  ⟨by decide,
   c1_document_values_override _ _ _ _ (by decide)⟩

/-- C3 counterexample: two templates both defining `genre`; the merged
template map holds the second (later) template's value, not the
first's, refuting first-reference-wins. -/
theorem c3_first_wins_counterexample :
    alookup
        (mergedTemplates
          [[("genre".toList, vStr "fantasy".toList)],
           [("genre".toList, vStr "scifi".toList)]])
        "genre".toList = some (vStr "scifi".toList)
    ∧ ¬ (alookup
        (mergedTemplates
          [[("genre".toList, vStr "fantasy".toList)],
           [("genre".toList, vStr "scifi".toList)]])
        "genre".toList = some (vStr "fantasy".toList)) := by
  decide

/-- C3 amended: in the merged template map of `applyTemplateMetadata`,
the value of the last-referenced template containing a key wins —
later templates in the reference list override keys contributed by
earlier ones. -/
theorem c3_last_template_wins (ts1 : List FM) (t : FM) (ts2 : List FM)
    (k : Str) (v : Val) (hv : alookup t k = some v)
    (hafter : ∀ u ∈ ts2, alookup u k = none) :
    alookup (mergedTemplates (ts1 ++ t :: ts2)) k = some v := by
  unfold mergedTemplates
  rw [lookup_foldl_spreadMerge, List.foldl_append, List.foldl_cons, hv]
  induction ts2 with
  | nil => rfl
  | cons u rest ih =>
    rw [List.foldl_cons, hafter u (List.mem_cons_self u rest)]
    exact ih (fun u2 hu2 => hafter u2 (List.mem_cons_of_mem u hu2))

/-- Witness for C3 amended at a concrete input. -/
theorem c3_last_template_wins_witness :
    alookup [("genre".toList, vStr "scifi".toList)] "genre".toList =
        some (vStr "scifi".toList)
    ∧ (∀ u ∈ ([[("other".toList, vNull)]] : List FM),
        alookup u "genre".toList = none)
    ∧ alookup
        (mergedTemplates
          ([[("genre".toList, vStr "fantasy".toList)]] ++
            [("genre".toList, vStr "scifi".toList)] :: [[("other".toList, vNull)]]))
        "genre".toList = some (vStr "scifi".toList) :=
  ⟨by decide, by decide,
   c3_last_template_wins _ _ _ _ _ (by decide) (by decide)⟩

/-- C2: in propagate-template-change (`syncTemplateToNote`), a property
removed from the template is deleted from a bound document only when
the document's value for it is empty; a document holding a non-empty
value keeps the property with that value. -/
theorem c2_nonempty_value_retained (prevTemplateData currTemplateData
    noteData : FM) (p : Str) (v : Val)
    (hrem : p ∈ (diffProps prevTemplateData currTemplateData).2)
    (hval : alookup noteData p = some v)
    (hne : isEmptyLoose v = false) :
    alookup
      (syncTemplateToNoteData noteData
        (diffProps prevTemplateData currTemplateData).1
        (diffProps prevTemplateData currTemplateData).2
        currTemplateData) p = some v := by
  unfold syncTemplateToNoteData
  exact alookup_removeProps _ _ _ _ (alookup_addProps _ _ _ _ _ hval) hne

/-- Witness for C2 at a concrete input: the template drops `rating`;
a note holding `rating: "5"` keeps it. -/
theorem c2_nonempty_value_retained_witness :
    "rating".toList ∈
        (diffProps [("rating".toList, vStr "".toList)] ([] : FM)).2
    ∧ alookup [("rating".toList, vStr "5".toList)] "rating".toList =
        some (vStr "5".toList)
    ∧ isEmptyLoose (vStr "5".toList) = false
    ∧ alookup
        (syncTemplateToNoteData [("rating".toList, vStr "5".toList)]
          (diffProps [("rating".toList, vStr "".toList)] ([] : FM)).1
          (diffProps [("rating".toList, vStr "".toList)] ([] : FM)).2
          ([] : FM)) "rating".toList = some (vStr "5".toList) :=
  ⟨by decide, by decide, by decide,
   c2_nonempty_value_retained _ _ _ _ _ (by decide) (by decide) (by decide)⟩

/-- C9: structured-block parsing is total (a Lean function) and fails
soft: when the block regex does not match, or when the captured block
raises a parse exception (modelled by `parseYamlModel` returning
`none`), `extractFrontmatter` returns the empty field map instead of
propagating a failure. -/
theorem c9_parse_fails_soft (content : Str)
    (h : fmCapture content = none ∨
      ∃ cap, fmCapture content = some cap ∧ parseYamlModel cap = none) :
    extractFrontmatter content = [] := by
  rcases h with h | ⟨cap, hc, hp⟩
  · simp [extractFrontmatter, h]
  · simp [extractFrontmatter, hc, hp]

/-- Witness for C9 at a concrete input: a block whose line has no
`key: value` shape parses to the empty map. -/
theorem c9_parse_fails_soft_witness :
    (fmCapture "---\nmalformed line\n---\nbody".toList = none ∨
      ∃ cap, fmCapture "---\nmalformed line\n---\nbody".toList = some cap ∧
        parseYamlModel cap = none)
    ∧ extractFrontmatter "---\nmalformed line\n---\nbody".toList = [] :=
  ⟨Or.inr ⟨"malformed line".toList, by decide, by decide⟩,
   c9_parse_fails_soft _
     (Or.inr ⟨"malformed line".toList, by decide, by decide⟩)⟩

/-- C10 counterexample: the text `a----b` has no leading structured
block and contains `---` twice (at offsets 1 and 2), yet
`replaceFrontMatter` discards nothing: the whole original text is
kept as the body, against the claim that every such write discards
the text up to and including the second occurrence. -/
theorem c10_counterexample :
    dashes.isPrefixOf ("a----b".toList.drop 1) = true
    ∧ dashes.isPrefixOf ("a----b".toList.drop 2) = true
    ∧ fmCapture "a----b".toList = none
    ∧ replaceFrontMatter "a----b".toList [] =
        "---\n".toList ++ dumpFM [] ++ "---\n\n".toList ++ "a----b".toList := by
  decide

/-- C10 amended: when the text has no leading structured block, its
first `---` occurrence is at `s`, and another occurrence is found at
`e ≥ s + 3`, every write through `replaceFrontMatter` silently
discards all original text up to and including that occurrence
(plus following whitespace) instead of preserving the whole text as
body. -/
theorem c10_body_discarded (content : Str) (d : FM) (s e : Nat)
    (hnolead : fmCapture content = none)
    (h1 : indexOfFrom content dashes 0 = some s)
    (h2 : indexOfFrom content dashes (s + 3) = some e) :
    replaceFrontMatter content d =
      "---\n".toList ++ dumpFM d ++ "---\n\n".toList ++
        trimStart (content.drop (e + 3)) := by
  unfold replaceFrontMatter extractBody
  simp only [h1, h2]

/-- Witness for C10 amended at a concrete input: a document whose body
holds two horizontal rules loses everything before and between
them. -/
theorem c10_body_discarded_witness :
    fmCapture "hello\n---\nfoo\n---\nbar".toList = none
    ∧ indexOfFrom "hello\n---\nfoo\n---\nbar".toList dashes 0 = some 6
    ∧ indexOfFrom "hello\n---\nfoo\n---\nbar".toList dashes (6 + 3) = some 14
    ∧ replaceFrontMatter "hello\n---\nfoo\n---\nbar".toList [] =
        "---\n".toList ++ dumpFM [] ++ "---\n\n".toList ++
          trimStart ("hello\n---\nfoo\n---\nbar".toList.drop (14 + 3)) :=
  ⟨by decide, by decide, by decide,
   c10_body_discarded _ _ 6 14 (by decide) (by decide) (by decide)⟩

/-- C5 counterexample: a concrete `handleTemplateMetadataChange` run in
which the single bound note's write fails (the loop aborts,
completion flag `false`), yet the template cache — the stored
snapshot — already holds the new property map rather than the
previous one, against the claim that the snapshot is advanced only
after propagation completes. -/
theorem c5_snapshot_counterexample :
    (handleTemplateMetadataChange "mt/Book.md".toList "Book".toList
        "mt".toList
        [("mt/Book.md".toList, [("rating".toList, vStr "5".toList)])]
        []
        [⟨"n.md".toList, ["mt/Book".toList],
          [("rating".toList, vStr "".toList)],
          "---\nrating: \n---\n\nbody".toList⟩]
        ["n.md".toList]).2.2 = false
    ∧ alookup
        (handleTemplateMetadataChange "mt/Book.md".toList "Book".toList
          "mt".toList
          [("mt/Book.md".toList, [("rating".toList, vStr "5".toList)])]
          []
          [⟨"n.md".toList, ["mt/Book".toList],
            [("rating".toList, vStr "".toList)],
            "---\nrating: \n---\n\nbody".toList⟩]
          ["n.md".toList]).1 "mt/Book.md".toList = some []
    ∧ ¬ (([] : FM) = [("rating".toList, vStr "5".toList)]) := by
  decide

/-- C5 amended: `handleTemplateMetadataChange` overwrites the stored
snapshot (the template-cache entry) with the new property map before
propagation begins, so the resulting cache maps the template to the
new data regardless of which document writes fail. -/
theorem c5_snapshot_advanced_before_propagation
    (templatePath metaTagName tagBase : Str)
    (templateCache : List (Str × FM)) (currTemplateData : FM)
    (allFiles : List NoteB) (failPaths : List Str) :
    alookup
      (handleTemplateMetadataChange templatePath metaTagName tagBase
        templateCache currTemplateData allFiles failPaths).1
      templatePath = some currTemplateData := by
  unfold handleTemplateMetadataChange
  exact alookup_mapSet templateCache templatePath currTemplateData

/-- C7 counterexample: a note holding the non-empty boolean value
`read: true` while the dropped template also has `read: true` loses
the property under `removeEmptyTemplateProperties`, against the
claim that a property with a real (non-empty) value is never
deleted. -/
theorem c7_boolean_value_deleted :
    alookup [("read".toList, vBool true)] "read".toList = some (vBool true)
    ∧ isEmptyStrict (vBool true) = false
    ∧ alookup
        (removeEmptyTemplatePropertiesData [("read".toList, vBool true)]
          [("read".toList, vBool true)]) "read".toList = none := by
  decide

/-- C7 amended: reference-removed pruning keeps a note property `k = v`
exactly when the dropped template lacks `k`, or `v` is non-empty and
is not a boolean equal to the template's boolean value for `k`; in
particular a property is deleted when it is empty and in the
template's property set, and also when it matches the template's
boolean value. -/
theorem c7_prune_characterization (noteData templateData : FM) (k : Str)
    (v : Val) (hnd : nodupKeys noteData) :
    alookup (removeEmptyTemplatePropertiesData noteData templateData) k =
        some v
      ↔ alookup noteData k = some v
        ∧ (alookup templateData k = none
            ∨ (isEmptyStrict v = false
                ∧ ∀ b : Bool,
                    alookup templateData k = some (vBool b) →
                      ¬ (v = vBool b))) := by
  unfold removeEmptyTemplatePropertiesData
  rw [alookup_filter _ _ _ hnd]
  cases hn : alookup noteData k with
  | none => simp
  | some v2 =>
    cases ht : alookup templateData k with
    | none => simp [ht]
    | some tv =>
      by_cases he : isEmptyStrict v2 = true
      · simp only [ht, he, if_true, Bool.false_eq_true, if_false]
        constructor
        · intro hc; cases hc
        · rintro ⟨hv2, hcond⟩
          have hvv : v2 = v := Option.some.inj hv2
          subst hvv
          rcases hcond with hc | ⟨hc, _⟩
          · cases hc
          · rw [he] at hc; cases hc
      · have he2 : isEmptyStrict v2 = false := by simpa using he
        cases tv with
        | vBool b2 =>
          by_cases hvb : v2 = vBool b2
          · simp only [ht, he2, Bool.false_eq_true, if_false, hvb]
            constructor
            · intro hc
              simp at hc
            · rintro ⟨hv2, hcond⟩
              have hvv : vBool b2 = v := by
                have := Option.some.inj hv2
                rw [← hvb]; exact hvb ▸ this
              subst hvv
              rcases hcond with hc | ⟨_, hall⟩
              · cases hc
              · exact absurd rfl (hall b2 rfl)
          · simp only [ht, he2, Bool.false_eq_true, if_false]
            constructor
            · intro hc
              rw [if_pos (by simpa using hvb)] at hc
              have hvv : v2 = v := Option.some.inj hc
              subst hvv
              refine ⟨rfl, Or.inr ⟨he2, ?_⟩⟩
              intro b hb hvb2
              have : b2 = b := by
                have := Option.some.inj hb
                exact vBool.inj this
              rw [← this] at hvb2
              exact hvb hvb2
            · rintro ⟨hv2, hcond⟩
              have hvv : v2 = v := Option.some.inj hv2
              subst hvv
              rw [if_pos (by simpa using hvb)]
        | vNull =>
          simp only [ht, he2, Bool.false_eq_true, if_false, if_true]
          constructor
          · intro hc
            have hvv : v2 = v := Option.some.inj hc
            subst hvv
            exact ⟨rfl, Or.inr ⟨he2, fun b hb => by cases hb⟩⟩
          · rintro ⟨hv2, _⟩
            exact hv2
        | vUndef =>
          simp only [ht, he2, Bool.false_eq_true, if_false, if_true]
          constructor
          · intro hc
            have hvv : v2 = v := Option.some.inj hc
            subst hvv
            exact ⟨rfl, Or.inr ⟨he2, fun b hb => by cases hb⟩⟩
          · rintro ⟨hv2, _⟩
            exact hv2
        | vStr s =>
          simp only [ht, he2, Bool.false_eq_true, if_false, if_true]
          constructor
          · intro hc
            have hvv : v2 = v := Option.some.inj hc
            subst hvv
            exact ⟨rfl, Or.inr ⟨he2, fun b hb => by cases hb⟩⟩
          · rintro ⟨hv2, _⟩
            exact hv2
        | vList l =>
          simp only [ht, he2, Bool.false_eq_true, if_false, if_true]
          constructor
          · intro hc
            have hvv : v2 = v := Option.some.inj hc
            subst hvv
            exact ⟨rfl, Or.inr ⟨he2, fun b hb => by cases hb⟩⟩
          · rintro ⟨hv2, _⟩
            exact hv2

/-- Witness for C7 amended at a concrete input: `author: ""` is in the
template's property set and empty, so it is not in the pruned map. -/
theorem c7_prune_characterization_witness :
    nodupKeys
        [("author".toList, vStr "Jane".toList), ("x".toList, vStr "".toList)]
    ∧ (alookup
        (removeEmptyTemplatePropertiesData
          [("author".toList, vStr "Jane".toList), ("x".toList, vStr "".toList)]
          [("author".toList, vStr "unknown".toList)])
        "author".toList = some (vStr "Jane".toList)
      ↔ alookup
          [("author".toList, vStr "Jane".toList), ("x".toList, vStr "".toList)]
          "author".toList = some (vStr "Jane".toList)
        ∧ (alookup [("author".toList, vStr "unknown".toList)]
              "author".toList = none
            ∨ (isEmptyStrict (vStr "Jane".toList) = false
                ∧ ∀ b : Bool,
                    alookup [("author".toList, vStr "unknown".toList)]
                        "author".toList = some (vBool b) →
                      ¬ (vStr "Jane".toList = vBool b)))) :=
  ⟨by decide,
   c7_prune_characterization _ _ _ _ (by decide)⟩

/-- C8: codec round-trip.  For a well-formed input `x` — one whose
extracted frontmatter satisfies `yamlRT`, i.e. it has a leading
parsable block that re-serializes cleanly — re-serializing the
parsed fields over the extracted body reproduces exactly the same
fields and body; the serialized form is the block, then exactly one
blank line, then the body, which carries no leading whitespace. -/
theorem c8_codec_round_trip (x : Str) (h : yamlRT (extractFrontmatter x)) :
    extractFrontmatter (replaceFrontMatter x (extractFrontmatter x)) =
        extractFrontmatter x
    ∧ extractBody (replaceFrontMatter x (extractFrontmatter x)) =
        extractBody x
    ∧ replaceFrontMatter x (extractFrontmatter x) =
        "---\n".toList ++ dumpFM (extractFrontmatter x) ++
          "---\n\n".toList ++ extractBody x
    ∧ trimStart (extractBody x) = extractBody x :=
  ⟨extractFrontmatter_replaceFrontMatter x _ h,
   extractBody_replaceFrontMatter x _ h,
   rfl,
   extractBody_trimStart x⟩

/-- Witness for C8 at a concrete well-formed input. -/
theorem c8_codec_round_trip_witness :
    yamlRT (extractFrontmatter "---\nauthor: Jane\nrating: null\n---\n\nbody text".toList)
    ∧ extractFrontmatter
        (replaceFrontMatter "---\nauthor: Jane\nrating: null\n---\n\nbody text".toList
          (extractFrontmatter "---\nauthor: Jane\nrating: null\n---\n\nbody text".toList)) =
        extractFrontmatter "---\nauthor: Jane\nrating: null\n---\n\nbody text".toList
    ∧ extractBody
        (replaceFrontMatter "---\nauthor: Jane\nrating: null\n---\n\nbody text".toList
          (extractFrontmatter "---\nauthor: Jane\nrating: null\n---\n\nbody text".toList)) =
        extractBody "---\nauthor: Jane\nrating: null\n---\n\nbody text".toList :=
  ⟨by decide,
   (c8_codec_round_trip _ (by decide)).1,
   (c8_codec_round_trip _ (by decide)).2.1⟩

/-- C4: whenever the template diff would cause at least one bound
document to actually lose a property (the document holds a falsy
value for a property the template dropped) whose prior template
value is non-trivial, `syncNotesWithTemplate` asks for confirmation
before any bound-document write; declining writes back the template
re-serialized to its pre-change property map and leaves every bound
document untouched. -/
theorem c4_destructive_change_confirmation
    (previousFrontmatter : FM) (newTemplateContent : Str)
    (tagBase templateName : Str) (allFiles : List NoteFile)
    (confirmAnswer : Bool) (f : NoteFile) (p : Str) (w v : Val)
    (hrt : yamlRT previousFrontmatter)
    (hf : f ∈ allFiles)
    (hbound : isBound f tagBase templateName = true)
    (hprev : alookup previousFrontmatter p = some w)
    (hnontrivial : isFalsy w = false)
    (hdropped : containsKey (extractFrontmatter newTemplateContent) p = false)
    (hdoc : alookup (extractFrontmatter f.content) p = some v)
    (hempty : isFalsy v = true) :
    (syncNotesWithTemplate previousFrontmatter newTemplateContent tagBase
        templateName allFiles confirmAnswer).confirmAsked = true
    ∧ (confirmAnswer = false →
        (syncNotesWithTemplate previousFrontmatter newTemplateContent tagBase
            templateName allFiles confirmAnswer).noteWrites = []
        ∧ (syncNotesWithTemplate previousFrontmatter newTemplateContent
            tagBase templateName allFiles confirmAnswer).templateWrite =
            some (revertContent previousFrontmatter newTemplateContent)
        ∧ extractFrontmatter
            (revertContent previousFrontmatter newTemplateContent) =
            previousFrontmatter) := by
  have hdel : p ∈ getDeletedProperties previousFrontmatter
      (extractFrontmatter newTemplateContent) := by
    unfold getDeletedProperties
    rw [List.mem_filter]
    exact ⟨alookup_some_mem_keys _ _ _ hprev, by simp [hdropped]⟩
  have hne : getDeletedProperties previousFrontmatter
      (extractFrontmatter newTemplateContent) ≠ [] :=
    List.ne_nil_of_mem hdel
  unfold syncNotesWithTemplate
  by_cases hca : confirmAnswer = false
  · rw [if_pos ⟨hne, hca⟩]
    exact ⟨rfl, fun _ => ⟨rfl, rfl, extractFrontmatter_revertContent _ _ hrt⟩⟩
  · rw [if_neg (fun hc => hca hc.2)]
    exact ⟨by simp [hne], fun hc => absurd hc hca⟩

/-- Witness for C4 at a concrete input: the template drops `rating`
(prior value `"5"`), a bound note holds `rating:` empty, and the
user declines: the template is reverted and no note is written. -/
theorem c4_destructive_change_confirmation_witness :
    yamlRT [("rating".toList, vStr "5".toList)]
    ∧ (syncNotesWithTemplate [("rating".toList, vStr "5".toList)]
        "---\nauthor: unknown\n---\n\ntb".toList "mt".toList "Book".toList
        [⟨"n.md".toList, ["mt/Book".toList],
          "---\nrating: \n---\n\nnb".toList⟩] false).confirmAsked = true
    ∧ (syncNotesWithTemplate [("rating".toList, vStr "5".toList)]
        "---\nauthor: unknown\n---\n\ntb".toList "mt".toList "Book".toList
        [⟨"n.md".toList, ["mt/Book".toList],
          "---\nrating: \n---\n\nnb".toList⟩] false).noteWrites = []
    ∧ (syncNotesWithTemplate [("rating".toList, vStr "5".toList)]
        "---\nauthor: unknown\n---\n\ntb".toList "mt".toList "Book".toList
        [⟨"n.md".toList, ["mt/Book".toList],
          "---\nrating: \n---\n\nnb".toList⟩] false).templateWrite =
        some (revertContent [("rating".toList, vStr "5".toList)]
          "---\nauthor: unknown\n---\n\ntb".toList) := by
  have h := c4_destructive_change_confirmation
    [("rating".toList, vStr "5".toList)]
    "---\nauthor: unknown\n---\n\ntb".toList
    "mt".toList "Book".toList
    [⟨"n.md".toList, ["mt/Book".toList], "---\nrating: \n---\n\nnb".toList⟩]
    false
    ⟨"n.md".toList, ["mt/Book".toList], "---\nrating: \n---\n\nnb".toList⟩
    "rating".toList (vStr "5".toList) (vStr "".toList)
    (by decide) (by decide) (by decide) (by decide) (by decide) (by decide)
    (by decide) (by decide)
  exact ⟨by decide, h.1, (h.2 rfl).1, (h.2 rfl).2.1⟩

/-! ### Merge idempotence (for C6) -/

theorem alookup_setTags (fm : FM) (newV : Val) (k : Str) :
    alookup
        (fm.map (fun kv => if kv.1 = tagsKey then (kv.1, newV) else kv)) k =
      (alookup fm k).map (fun v => if k = tagsKey then newV else v) := by
  induction fm with
  | nil => simp [alookup]
  | cons kv t ih =>
    obtain ⟨a, b⟩ := kv
    simp only [List.map_cons]
    by_cases hak : a = k
    · subst hak
      by_cases hat : a = tagsKey
      · rw [if_pos (show ((a, b) : Str × Val).1 = tagsKey from hat)]
        simp [alookup, hat]
      · rw [if_neg (show ¬ ((a, b) : Str × Val).1 = tagsKey from hat)]
        simp [alookup, hat]
    · by_cases hat : a = tagsKey
      · rw [if_pos (show ((a, b) : Str × Val).1 = tagsKey from hat)]
        simp [alookup, hak, ih]
      · rw [if_neg (show ¬ ((a, b) : Str × Val).1 = tagsKey from hat)]
        simp [alookup, hak, ih]

theorem filter_self_idem {α : Type} (p : α → Bool) (l : List α) :
    (l.filter p).filter p = l.filter p :=
  List.filter_eq_self.mpr (fun a ha => List.of_mem_filter ha)

theorem filterTags_idem (fm : FM) (tb : Str) :
    filterTags (filterTags fm tb) tb = filterTags fm tb := by
  cases h : alookup fm tagsKey with
  | none =>
    have h1 : filterTags fm tb = fm := by
      simp only [filterTags, h]
    rw [h1, h1]
  | some v =>
    cases v with
    | vNull =>
      have h1 : filterTags fm tb = fm := by simp only [filterTags, h]
      rw [h1, h1]
    | vUndef =>
      have h1 : filterTags fm tb = fm := by simp only [filterTags, h]
      rw [h1, h1]
    | vBool b =>
      have h1 : filterTags fm tb = fm := by simp only [filterTags, h]
      rw [h1, h1]
    | vStr s =>
      have h1 : filterTags fm tb = fm := by simp only [filterTags, h]
      rw [h1, h1]
    | vList l =>
      have h1 : filterTags fm tb =
          fm.map (fun kv => if kv.1 = tagsKey then
            (kv.1, vList (l.filter (fun x => x ≠ tb))) else kv) := by
        simp only [filterTags, h]
      set m := filterTags fm tb with hm
      have h2 : alookup m tagsKey =
          some (vList (l.filter (fun x => x ≠ tb))) := by
        rw [h1, alookup_setTags, h]
        simp
      have h3 : filterTags m tb =
          m.map (fun kv => if kv.1 = tagsKey then
            (kv.1, vList ((l.filter (fun x => x ≠ tb)).filter
              (fun x => x ≠ tb))) else kv) := by
        simp only [filterTags, h2]
      rw [h3, h1, List.map_map]
      apply List.map_congr_left
      intro kv _
      by_cases hk : kv.1 = tagsKey
      · simp [Function.comp, hk, filter_self_idem]
      · simp [Function.comp, hk]

theorem spreadMerge_of_shape (t A2 B2 : FM) (hnd : nodupKeys t)
    (hA2 : ∃ g : Str → Val → Val,
      A2 = t.map (fun kv => (kv.1, g kv.1 kv.2)))
    (hB2keys : ∀ kv : Str × Val, kv ∈ B2 → (!(containsKey t kv.1)) = true) :
    spreadMerge t (A2 ++ B2) = A2 ++ B2 := by
  obtain ⟨g, hg⟩ := hA2
  unfold spreadMerge
  congr 1
  · conv_rhs => rw [hg]
    apply List.map_congr_left
    intro kv hkv
    have hAl : alookup A2 kv.1 = some (g kv.1 kv.2) := by
      rw [hg, alookup_map_val g]
      rw [alookup_of_mem_nodup t kv hkv hnd]
      rfl
    have hlook : alookup (A2 ++ B2) kv.1 = some (g kv.1 kv.2) := by
      rw [alookup_append]
      simp only [hAl]
    rw [hlook]
    rfl
  · rw [List.filter_append]
    have h1 : A2.filter (fun kv => !(containsKey t kv.1)) = [] := by
      rw [List.filter_eq_nil_iff]
      intro kv2 hkv2
      rw [hg] at hkv2
      obtain ⟨kv, hkv, hmap⟩ := List.mem_map.mp hkv2
      have hk : kv2.1 = kv.1 := by rw [← hmap]
      rw [hk]
      have hct : containsKey t kv.1 = true :=
        (containsKey_eq_mem t kv.1).mpr (List.mem_map_of_mem Prod.fst hkv)
      simp [hct]
    have h2 : B2.filter (fun kv => !(containsKey t kv.1)) = B2 :=
      List.filter_eq_self.mpr hB2keys
    rw [h1, h2]
    rfl

theorem spreadMerge_absorb (e t : FM) (tb : Str) (hnd : nodupKeys t) :
    spreadMerge t (mergeFrontmatter e t tb) = mergeFrontmatter e t tb := by
  unfold mergeFrontmatter
  set A := t.map (fun kv => (kv.1, (alookup e kv.1).getD kv.2)) with hA
  set B := e.filter (fun kv => !(containsKey t kv.1)) with hB
  have hse : spreadMerge t e = A ++ B := rfl
  rw [hse]
  have hBkeys : ∀ kv : Str × Val, kv ∈ B → (!(containsKey t kv.1)) = true := by
    intro kv2 hkv2
    rw [hB] at hkv2
    exact (List.mem_filter.mp hkv2).2
  cases htag : alookup (A ++ B) tagsKey with
  | none =>
    have hft : filterTags (A ++ B) tb = A ++ B := by
      simp only [filterTags, htag]
    rw [hft]
    exact spreadMerge_of_shape t A B hnd
      ⟨fun key v => (alookup e key).getD v, hA⟩ hBkeys
  | some v =>
    cases v with
    | vNull =>
      have hft : filterTags (A ++ B) tb = A ++ B := by
        simp only [filterTags, htag]
      rw [hft]
      exact spreadMerge_of_shape t A B hnd
        ⟨fun key v => (alookup e key).getD v, hA⟩ hBkeys
    | vUndef =>
      have hft : filterTags (A ++ B) tb = A ++ B := by
        simp only [filterTags, htag]
      rw [hft]
      exact spreadMerge_of_shape t A B hnd
        ⟨fun key v => (alookup e key).getD v, hA⟩ hBkeys
    | vBool b =>
      have hft : filterTags (A ++ B) tb = A ++ B := by
        simp only [filterTags, htag]
      rw [hft]
      exact spreadMerge_of_shape t A B hnd
        ⟨fun key v => (alookup e key).getD v, hA⟩ hBkeys
    | vStr s =>
      have hft : filterTags (A ++ B) tb = A ++ B := by
        simp only [filterTags, htag]
      rw [hft]
      exact spreadMerge_of_shape t A B hnd
        ⟨fun key v => (alookup e key).getD v, hA⟩ hBkeys
    | vList l =>
      have hft : filterTags (A ++ B) tb =
          (A ++ B).map (fun kv => if kv.1 = tagsKey then
            (kv.1, vList (l.filter (fun x => x ≠ tb))) else kv) := by
        simp only [filterTags, htag]
      rw [hft, List.map_append]
      apply spreadMerge_of_shape t _ _ hnd
      · refine ⟨fun key v => if key = tagsKey then
          vList (l.filter (fun x => x ≠ tb)) else (alookup e key).getD v, ?_⟩
        rw [hA, List.map_map]
        apply List.map_congr_left
        intro kv _
        by_cases hk : kv.1 = tagsKey
        · simp [Function.comp, hk]
        · simp [Function.comp, hk]
      · intro kv2 hkv2
        obtain ⟨kv, hkv, hmap⟩ := List.mem_map.mp hkv2
        have hk : kv2.1 = kv.1 := by
          rw [← hmap]
          by_cases hkk : kv.1 = tagsKey <;> simp [hkk]
        rw [hk]
        exact hBkeys kv hkv

theorem mergeFrontmatter_idem (e t : FM) (tb : Str) (hnd : nodupKeys t) :
    mergeFrontmatter (mergeFrontmatter e t tb) t tb =
      mergeFrontmatter e t tb := by
  show filterTags (spreadMerge t (mergeFrontmatter e t tb)) tb = _
  rw [spreadMerge_absorb e t tb hnd]
  show filterTags (filterTags (spreadMerge t e) tb) tb = _
  rw [filterTags_idem]
  rfl

/-- C6: `applyMetadataTemplate` writes the document back only when the
merged map stringifies differently from the current frontmatter
(identical maps skip the write), and applying the same template
twice in a row is idempotent: when the first application writes
`c1`, the second application on `c1` performs no write, and `c1`'s
structured fields are exactly the merged map, so both applications
yield the same fields. -/
theorem c6_apply_template_idempotent (content : Str)
    (templateFrontmatter : FM) (tagBase : Str)
    (hnd : nodupKeys templateFrontmatter)
    (hrt : yamlRT (mergeFrontmatter (extractFrontmatter content)
      templateFrontmatter tagBase)) :
    (jsonEq (extractFrontmatter content)
        (mergeFrontmatter (extractFrontmatter content) templateFrontmatter
          tagBase) = true →
      applyMetadataTemplate content templateFrontmatter tagBase = none)
    ∧ ∀ c1,
        applyMetadataTemplate content templateFrontmatter tagBase = some c1 →
          applyMetadataTemplate c1 templateFrontmatter tagBase = none
          ∧ extractFrontmatter c1 =
              mergeFrontmatter (extractFrontmatter content)
                templateFrontmatter tagBase := by
  constructor
  · intro hje
    unfold applyMetadataTemplate
    rw [if_pos hje]
  · intro c1 hc1
    unfold applyMetadataTemplate at hc1
    by_cases hje : jsonEq (extractFrontmatter content)
        (mergeFrontmatter (extractFrontmatter content) templateFrontmatter
          tagBase) = true
    · rw [if_pos hje] at hc1
      cases hc1
    · rw [if_neg hje] at hc1
      have hc1e : c1 = updateContentWithFrontmatter content
          (mergeFrontmatter (extractFrontmatter content) templateFrontmatter
            tagBase) := (Option.some.inj hc1).symm
      have hex : extractFrontmatter c1 =
          mergeFrontmatter (extractFrontmatter content) templateFrontmatter
            tagBase := by
        rw [hc1e]
        exact extractFrontmatter_updateContent _ _ hrt
      refine ⟨?_, hex⟩
      unfold applyMetadataTemplate
      rw [if_pos ?hcond]
      case hcond =>
        rw [hex, mergeFrontmatter_idem _ _ _ hnd]
        simp [jsonEq]

/-- Witness for C6 at a concrete input: applying a `rating: null`
template to a note carrying `author: Jane` writes once; the second
application is a no-op and the fields are the merged map. -/
theorem c6_apply_template_idempotent_witness :
    nodupKeys [("rating".toList, vNull)]
    ∧ yamlRT (mergeFrontmatter
        (extractFrontmatter "---\nauthor: Jane\n---\n\nbody".toList)
        [("rating".toList, vNull)] "mt".toList)
    ∧ applyMetadataTemplate "---\nauthor: Jane\n---\n\nbody".toList
        [("rating".toList, vNull)] "mt".toList =
        some (updateContentWithFrontmatter "---\nauthor: Jane\n---\n\nbody".toList
          (mergeFrontmatter
            (extractFrontmatter "---\nauthor: Jane\n---\n\nbody".toList)
            [("rating".toList, vNull)] "mt".toList))
    ∧ applyMetadataTemplate
        (updateContentWithFrontmatter "---\nauthor: Jane\n---\n\nbody".toList
          (mergeFrontmatter
            (extractFrontmatter "---\nauthor: Jane\n---\n\nbody".toList)
            [("rating".toList, vNull)] "mt".toList))
        [("rating".toList, vNull)] "mt".toList = none
    ∧ extractFrontmatter
        (updateContentWithFrontmatter "---\nauthor: Jane\n---\n\nbody".toList
          (mergeFrontmatter
            (extractFrontmatter "---\nauthor: Jane\n---\n\nbody".toList)
            [("rating".toList, vNull)] "mt".toList)) =
        mergeFrontmatter
          (extractFrontmatter "---\nauthor: Jane\n---\n\nbody".toList)
          [("rating".toList, vNull)] "mt".toList := by
  have h := (c6_apply_template_idempotent
    "---\nauthor: Jane\n---\n\nbody".toList
    [("rating".toList, vNull)] "mt".toList (by decide) (by decide)).2
    (updateContentWithFrontmatter "---\nauthor: Jane\n---\n\nbody".toList
      (mergeFrontmatter
        (extractFrontmatter "---\nauthor: Jane\n---\n\nbody".toList)
        [("rating".toList, vNull)] "mt".toList))
    (by decide)
  exact ⟨by decide, by decide, by decide, h.1, h.2⟩
